import Mathlib

/-!
Verification of the incremental build/caching engine of the
`@tailwindcss/postcss` plugin (`migrate.ts`, the `tailwindcss` plugin
factory with its `OnceExit` pass, `createCompiler`, and `optimizeCss`).

The external collaborators (the stylesheet compiler, the candidate
scanner, the lightningcss transform, the filesystem) are modelled as an
`Env` record of functions; the per-entry mutable cache object is the
`Context` structure; one `OnceExit` invocation is the `onceExit`
function, which returns the mutated context together with the emitted
output, the chosen rebuild strategy, the raw build result, the scan
result and the number of optimizer invocations of that pass.
-/

namespace TailwindPostcss

/-- The two rebuild strategies of the plugin
(`let rebuildStrategy: 'full' | 'incremental' = 'incremental'`). -/
inductive Strategy where
  | full
  | incremental
deriving DecidableEq, Repr

/-- A `(base, pattern)` glob pair, as produced by `compiler.globs` and
`scanner.globs`. -/
structure Glob where
  base : String
  pattern : String
deriving DecidableEq, Repr

/-- A compiler handle, as returned by `compile(css, {base, onDependency})`:
its stable glob list, the dependency paths it reported via `onDependency`
during creation, and its (possibly throwing) `build(candidates)` operation. -/
structure Compiler where
  globs : List Glob
  deps : List String
  build : List String → Except String String

/-- The result of `scanner.scan()` together with `scanner.files` and
`scanner.globs`. -/
structure ScanResult where
  candidates : List String
  files : List String
  globs : List Glob

/-- The external world visible to one invocation: `fs.statSync(file).mtimeMs`
(`none` when the file is missing), the compiler that `compile(root, ...)`
would produce now, the scanner keyed by the source globs it is given, and the
lightningcss `transform` keyed by the `minify` flag. -/
structure Env where
  mtime : String → Option Nat
  compile : Compiler
  scan : List Glob → ScanResult
  transform : Bool → String → String

/-- The modification-time clock: `context.mtimes`, a JS `Map<string, number>`
modelled as an association list. -/
abbrev Mtimes := List (String × Nat)

/-- `Map.get` on the mtime clock. -/
def lookupM (m : Mtimes) (k : String) : Option Nat :=
  match m with
  | [] => none
  | (a, v) :: rest => if a = k then some v else lookupM rest k

/-- `Map.set` on the mtime clock: replace the binding if present, else add. -/
def setM (m : Mtimes) (k : String) (v : Nat) : Mtimes :=
  match m with
  | [] => [(k, v)]
  | (a, w) :: rest => if a = k then (k, v) :: rest else (a, w) :: setM rest k v

/-- One cache entry, as produced by the `DefaultMap` factory in
`tailwindcss()`: `{ mtimes, compiler, css, optimizedCss, fullRebuildPaths }`. -/
structure Context where
  mtimes : Mtimes
  compiler : Option Compiler
  css : String
  optimizedCss : String
  fullRebuildPaths : List String

/-- The fresh entry the `DefaultMap` factory creates for an unseen key. -/
def initContext : Context :=
  { mtimes := [], compiler := none, css := "", optimizedCss := "", fullRebuildPaths := [] }

/-- The `optimize` plugin option: `boolean | { minify?: boolean }`. -/
inductive OptimizeSetting where
  | bool (b : Bool)
  | obj (minify : Option Bool)
deriving DecidableEq, Repr

/-- JS truthiness of the `optimize` option: a boolean is its own truth value,
an object is always truthy. -/
def optTruthy : OptimizeSetting → Bool
  | .bool b => b
  | .obj _ => true

/-- The `minify` flag passed to `optimizeCss`:
`typeof optimize === 'object' ? optimize.minify : true`, with `optimizeCss`
defaulting an `undefined` minify to `false`. -/
def effMinify : OptimizeSetting → Bool
  | .bool _ => true
  | .obj m => m.getD false

/-- One step of the mtime-tracking loop body (`for (let file of files)`):
a missing file forces `full` only when it is the input file; an existing
file whose time differs from the recorded one (or has no recorded time)
forces `full` and updates the clock. -/
def checkFile (mt : String → Option Nat) (inputFile : String)
    (st : Strategy × Mtimes) (file : String) : Strategy × Mtimes :=
  match mt file with
  | none => if file = inputFile then (Strategy.full, st.2) else st
  | some changed =>
      match lookupM st.2 file with
      | some prev =>
          if prev = changed then st else (Strategy.full, setM st.2 file changed)
      | none => (Strategy.full, setM st.2 file changed)

/-- The whole mtime-tracking loop, starting from
`rebuildStrategy = 'incremental'` and the entry's current clock. -/
def checkFiles (mt : String → Option Nat) (inputFile : String)
    (files : List String) (mtimes : Mtimes) : Strategy × Mtimes :=
  files.foldl (checkFile mt inputFile) (Strategy.incremental, mtimes)

/-- `context.compiler ??= await createCompiler()`: when no handle exists,
create one, which resets `fullRebuildPaths` and repopulates it from the
compiler's `onDependency` reports. Returns the handle in scope afterwards. -/
def ensureCompiler (env : Env) (ctx : Context) : Compiler × Context :=
  match ctx.compiler with
  | some c => (c, ctx)
  | none =>
      (env.compile,
        { ctx with compiler := some env.compile, fullRebuildPaths := env.compile.deps })

/-- `if (rebuildStrategy === 'full') context.compiler = await createCompiler()`:
on `full`, discard the old handle, re-deriving `fullRebuildPaths`; on
`incremental`, keep the handle in scope. Returns the handle used for `build`. -/
def recreateOnFull (env : Env) (strategy : Strategy) (comp : Compiler)
    (ctx : Context) : Compiler × Context :=
  match strategy with
  | .full =>
      (env.compile,
        { ctx with compiler := some env.compile, fullRebuildPaths := env.compile.deps })
  | .incremental => (comp, ctx)

/-- Everything before the build call: ensure a compiler, collect the files
to time-check (`dependency` messages already present, then the pushed
`fullRebuildPaths`, then the input file), run the mtime loop, scan using the
pre-recreation handle's globs, recreate the handle on `full`, and call
`build` on the resulting handle with the scanned candidates. Returns the
context so far, the strategy, the scan result and the raw build outcome. -/
def preEmit (env : Env) (fromOpt : Option String) (priorDeps : List String)
    (ctx : Context) : Context × Strategy × ScanResult × Except String String :=
  let inputFile := fromOpt.getD ""
  let p := ensureCompiler env ctx
  let files := priorDeps ++ p.2.fullRebuildPaths ++ [inputFile]
  let sm := checkFiles env.mtime inputFile files p.2.mtimes
  let ctx2 := { p.2 with mtimes := sm.2 }
  let sres := env.scan p.1.globs
  let q := recreateOnFull env sm.1 p.1 ctx2
  (q.2, sm.1, sres, q.1.build sres.candidates)

/-- The tail of the pass: on a build failure nothing more runs; on success,
optimize when the CSS changed and `optimize` is truthy, record the new CSS,
and emit `optimize ? context.optimizedCss : context.css`. The third
component counts optimizer invocations of this pass. -/
def emitPhase (env : Env) (opt : OptimizeSetting) (ctx : Context)
    (built : Except String String) : Context × Except String String × Nat :=
  match built with
  | .error e => (ctx, Except.error e, 0)
  | .ok css =>
      let runs := if css ≠ ctx.css ∧ optTruthy opt = true then 1 else 0
      let ctx4 :=
        if css ≠ ctx.css ∧ optTruthy opt = true then
          { ctx with optimizedCss := env.transform (effMinify opt) css }
        else ctx
      let ctx5 := { ctx4 with css := css }
      let out := if optTruthy opt = true then ctx5.optimizedCss else ctx5.css
      (ctx5, Except.ok out, runs)

/-- The observable outcome of one `OnceExit` invocation. -/
structure StepResult where
  ctx : Context
  output : Except String String
  strategy : Strategy
  scanResult : ScanResult
  rawBuild : Except String String
  optimizeRuns : Nat

/-- One `OnceExit` invocation on a cache entry `ctx`, with `fromOpt` the
`result.opts.from` value and `priorDeps` the files of `dependency` messages
already present in `result.messages` when the pass starts. -/
def onceExit (env : Env) (opt : OptimizeSetting) (fromOpt : Option String)
    (priorDeps : List String) (ctx : Context) : StepResult :=
  let pre := preEmit env fromOpt priorDeps ctx
  let em := emitPhase env opt pre.1 pre.2.2.2
  { ctx := em.1, output := em.2.1, strategy := pre.2.1,
    scanResult := pre.2.2.1, rawBuild := pre.2.2.2, optimizeRuns := em.2.2 }

/-- Iterated invocations on the same cache entry under a fixed environment. -/
def iterate (env : Env) (opt : OptimizeSetting) (fromOpt : Option String)
    (priorDeps : List String) : Nat → Context → Context
  | 0, ctx => ctx
  | n + 1, ctx => iterate env opt fromOpt priorDeps n (onceExit env opt fromOpt priorDeps ctx).ctx

/-- The plugin options record (`PluginOptions`). -/
structure PluginOptions where
  base : Option String
  optimize : Option OptimizeSetting

/-- `let base = opts.base ?? process.cwd()`. -/
def resolveBase (opts : PluginOptions) (cwd : String) : String :=
  opts.base.getD cwd

/-- `let optimize = opts.optimize ?? process.env.NODE_ENV === 'production'`. -/
def resolveOptimize (opts : PluginOptions) (nodeEnv : Option String) : OptimizeSetting :=
  opts.optimize.getD (.bool (decide (nodeEnv = some "production")))

/-- The plugin-level cache (`DefaultMap` keyed by `result.opts.from ?? ''`). -/
abbrev Cache := List (String × Context)

/-- Lookup in the plugin cache. -/
def cacheLookup (c : Cache) (k : String) : Option Context :=
  match c with
  | [] => none
  | (a, v) :: rest => if a = k then some v else cacheLookup rest k

/-- Store in the plugin cache, replacing an existing binding. -/
def cacheSet (c : Cache) (k : String) (v : Context) : Cache :=
  match c with
  | [] => [(k, v)]
  | (a, w) :: rest => if a = k then (k, v) :: rest else (a, w) :: cacheSet rest k v

/-- `DefaultMap.get`: return the stored entry, or create, store and return a
fresh one. -/
def cacheGet (c : Cache) (k : String) : Context × Cache :=
  match cacheLookup c k with
  | some v => (v, c)
  | none => (initContext, cacheSet c k initContext)

/-- One full plugin invocation at the cache level: key the entry by
`result.opts.from ?? ''`, run `OnceExit` on it, and store the mutated entry
back (in JS the entry object is mutated in place). -/
def pluginStep (env : Env) (opt : OptimizeSetting) (fromOpt : Option String)
    (priorDeps : List String) (cache : Cache) : StepResult × Cache :=
  let k := fromOpt.getD ""
  let g := cacheGet cache k
  let r := onceExit env opt fromOpt priorDeps g.1
  (r, cacheSet g.2 k r.ctx)

/-! ### Lemmas about the mtime clock -/

theorem lookupM_setM_self (m : Mtimes) (k : String) (v : Nat) :
    lookupM (setM m k v) k = some v := by
  induction m with
  | nil => simp [setM, lookupM]
  | cons hd tl ih =>
      obtain ⟨a, w⟩ := hd
      by_cases h : a = k
      · simp [setM, lookupM, h]
      · simp [setM, lookupM, h, ih]

theorem lookupM_setM_ne (m : Mtimes) (k f : String) (v : Nat) (h : k ≠ f) :
    lookupM (setM m k v) f = lookupM m f := by
  induction m with
  | nil => simp [setM, lookupM, h]
  | cons hd tl ih =>
      obtain ⟨a, w⟩ := hd
      by_cases ha : a = k
      · subst ha
        simp [setM, lookupM, h]
      · simp [setM, lookupM, ha, ih]

/-! ### Lemmas about the mtime-tracking loop -/

theorem checkFile_fst_full (mt : String → Option Nat) (inputFile : String)
    (st : Strategy × Mtimes) (f : String) (h : st.1 = Strategy.full) :
    (checkFile mt inputFile st f).1 = Strategy.full := by
  unfold checkFile
  cases mt f with
  | none =>
      by_cases hf : f = inputFile <;> simp [hf, h]
  | some c =>
      cases lookupM st.2 f with
      | none => simp
      | some prev =>
          by_cases hp : prev = c <;> simp [hp, h]

theorem foldl_checkFile_full (mt : String → Option Nat) (inputFile : String)
    (L : List String) : ∀ st : Strategy × Mtimes, st.1 = Strategy.full →
    (L.foldl (checkFile mt inputFile) st).1 = Strategy.full := by
  induction L with
  | nil => intro st h; simpa using h
  | cons g rest ih =>
      intro st h
      exact ih _ (checkFile_fst_full mt inputFile st g h)

theorem checkFile_snd_missing (mt : String → Option Nat) (inputFile : String)
    (st : Strategy × Mtimes) (g : String) (h : mt g = none) :
    (checkFile mt inputFile st g).2 = st.2 := by
  unfold checkFile
  rw [h]
  by_cases hg : g = inputFile <;> simp [hg]

theorem checkFile_lookup_other (mt : String → Option Nat) (inputFile : String)
    (st : Strategy × Mtimes) (g f : String) (hne : g ≠ f) :
    lookupM (checkFile mt inputFile st g).2 f = lookupM st.2 f := by
  unfold checkFile
  cases hg : mt g with
  | none => by_cases hgi : g = inputFile <;> simp [hgi]
  | some c =>
      cases lookupM st.2 g with
      | none => simp [lookupM_setM_ne st.2 g f c hne]
      | some prev =>
          by_cases hpc : prev = c <;> simp [hpc, lookupM_setM_ne st.2 g f c hne]

theorem checkFile_records_self (mt : String → Option Nat) (inputFile : String)
    (st : Strategy × Mtimes) (f : String) (t : Nat) (hmt : mt f = some t) :
    lookupM (checkFile mt inputFile st f).2 f = some t := by
  unfold checkFile
  rw [hmt]
  cases hl : lookupM st.2 f with
  | none => simp [lookupM_setM_self]
  | some prev =>
      by_cases hp : prev = t
      · simp [hp, hl]
      · simp [hp, lookupM_setM_self]

theorem checkFile_preserves_recorded (mt : String → Option Nat) (inputFile : String)
    (st : Strategy × Mtimes) (g f : String) (t : Nat)
    (hmt : mt f = some t) (hrec : lookupM st.2 f = some t) :
    lookupM (checkFile mt inputFile st g).2 f = some t := by
  by_cases hgf : g = f
  · subst hgf
    exact checkFile_records_self mt inputFile st g t hmt
  · rw [checkFile_lookup_other mt inputFile st g f hgf]
    exact hrec

theorem foldl_checkFile_preserves (mt : String → Option Nat) (inputFile : String)
    (L : List String) : ∀ (st : Strategy × Mtimes) (f : String) (t : Nat),
    mt f = some t → lookupM st.2 f = some t →
    lookupM (L.foldl (checkFile mt inputFile) st).2 f = some t := by
  induction L with
  | nil => intro st f t _ h; simpa using h
  | cons g rest ih =>
      intro st f t hmt hrec
      exact ih _ f t hmt (checkFile_preserves_recorded mt inputFile st g f t hmt hrec)

theorem foldl_checkFile_records (mt : String → Option Nat) (inputFile : String)
    (L : List String) : ∀ (st : Strategy × Mtimes) (f : String) (t : Nat),
    f ∈ L → mt f = some t →
    lookupM (L.foldl (checkFile mt inputFile) st).2 f = some t := by
  induction L with
  | nil => intro st f t h; exact absurd h (List.not_mem_nil f)
  | cons g rest ih =>
      intro st f t hf hmt
      by_cases hgf : f = g
      · subst hgf
        exact foldl_checkFile_preserves mt inputFile rest _ f t hmt
          (checkFile_records_self mt inputFile st f t hmt)
      · have hfr : f ∈ rest := by
          rcases List.mem_cons.mp hf with h | h
          · exact absurd h hgf
          · exact h
        exact ih _ f t hfr hmt

theorem checkFile_preserves_missing (mt : String → Option Nat) (inputFile : String)
    (st : Strategy × Mtimes) (g p : String) (hp : mt p = none) :
    lookupM (checkFile mt inputFile st g).2 p = lookupM st.2 p := by
  by_cases hgp : g = p
  · subst hgp
    rw [checkFile_snd_missing mt inputFile st g hp]
  · rw [checkFile_lookup_other mt inputFile st g p hgp]

theorem foldl_checkFile_missing (mt : String → Option Nat) (inputFile : String)
    (L : List String) : ∀ (st : Strategy × Mtimes) (p : String), mt p = none →
    lookupM (L.foldl (checkFile mt inputFile) st).2 p = lookupM st.2 p := by
  induction L with
  | nil => intro st p _; rfl
  | cons g rest ih =>
      intro st p hp
      rw [List.foldl_cons, ih _ p hp, checkFile_preserves_missing mt inputFile st g p hp]

theorem checkFile_stable (mt : String → Option Nat) (inputFile : String)
    (m : Mtimes) (f : String)
    (h : (mt f = none ∧ f ≠ inputFile) ∨ ∃ t, mt f = some t ∧ lookupM m f = some t) :
    checkFile mt inputFile (Strategy.incremental, m) f = (Strategy.incremental, m) := by
  unfold checkFile
  rcases h with ⟨hm, hne⟩ | ⟨t, hm, hrec⟩
  · simp [hm, hne]
  · simp [hm, hrec]

theorem foldl_checkFile_stable (mt : String → Option Nat) (inputFile : String)
    (L : List String) (m : Mtimes)
    (h : ∀ f ∈ L, (mt f = none ∧ f ≠ inputFile) ∨
      ∃ t, mt f = some t ∧ lookupM m f = some t) :
    L.foldl (checkFile mt inputFile) (Strategy.incremental, m) = (Strategy.incremental, m) := by
  induction L with
  | nil => rfl
  | cons g rest ih =>
      rw [List.foldl_cons, checkFile_stable mt inputFile m g (h g (List.mem_cons_self g rest))]
      exact ih (fun f hf => h f (List.mem_cons_of_mem g hf))

theorem foldl_checkFile_forces (mt : String → Option Nat) (inputFile : String)
    (L : List String) : ∀ (st : Strategy × Mtimes) (f : String) (t : Nat),
    f ∈ L → mt f = some t → lookupM st.2 f ≠ some t →
    (L.foldl (checkFile mt inputFile) st).1 = Strategy.full := by
  induction L with
  | nil => intro st f t h; exact absurd h (List.not_mem_nil f)
  | cons g rest ih =>
      intro st f t hf hmt hrec
      by_cases hgf : g = f
      · subst hgf
        have hfull : (checkFile mt inputFile st g).1 = Strategy.full := by
          unfold checkFile
          rw [hmt]
          cases hl : lookupM st.2 g with
          | none => simp
          | some prev =>
              have : prev ≠ t := by
                intro h; subst h; exact hrec hl
              simp [this]
        exact foldl_checkFile_full mt inputFile rest _ hfull
      · have hfr : f ∈ rest := by
          rcases List.mem_cons.mp hf with h | h
          · exact absurd h.symm hgf
          · exact h
        have hrec2 : lookupM (checkFile mt inputFile st g).2 f ≠ some t := by
          rw [checkFile_lookup_other mt inputFile st g f hgf]
          exact hrec
        exact ih _ f t hfr hmt hrec2

theorem foldl_checkFile_missing_input (mt : String → Option Nat) (inputFile : String)
    (L : List String) : ∀ st : Strategy × Mtimes,
    inputFile ∈ L → mt inputFile = none →
    (L.foldl (checkFile mt inputFile) st).1 = Strategy.full := by
  induction L with
  | nil => intro st h; exact absurd h (List.not_mem_nil inputFile)
  | cons g rest ih =>
      intro st hf hmt
      by_cases hgf : g = inputFile
      · subst hgf
        have hfull : (checkFile mt g st g).1 = Strategy.full := by
          unfold checkFile
          rw [hmt]
          simp
        exact foldl_checkFile_full mt g rest _ hfull
      · have hfr : inputFile ∈ rest := by
          rcases List.mem_cons.mp hf with h | h
          · exact absurd h.symm hgf
          · exact h
        exact ih _ hfr hmt

/-! ### Structural lemmas about the pass phases -/

theorem ensureCompiler_some (env : Env) (ctx : Context) (c : Compiler)
    (h : ctx.compiler = some c) : ensureCompiler env ctx = (c, ctx) := by
  unfold ensureCompiler
  rw [h]

theorem ensureCompiler_none (env : Env) (ctx : Context) (h : ctx.compiler = none) :
    ensureCompiler env ctx =
      (env.compile,
        { ctx with compiler := some env.compile, fullRebuildPaths := env.compile.deps }) := by
  unfold ensureCompiler
  rw [h]

theorem ensureCompiler_css (env : Env) (ctx : Context) :
    (ensureCompiler env ctx).2.css = ctx.css := by
  unfold ensureCompiler
  cases ctx.compiler <;> rfl

theorem ensureCompiler_optimizedCss (env : Env) (ctx : Context) :
    (ensureCompiler env ctx).2.optimizedCss = ctx.optimizedCss := by
  unfold ensureCompiler
  cases ctx.compiler <;> rfl

theorem ensureCompiler_mtimes (env : Env) (ctx : Context) :
    (ensureCompiler env ctx).2.mtimes = ctx.mtimes := by
  unfold ensureCompiler
  cases ctx.compiler <;> rfl

theorem ensureCompiler_compiler (env : Env) (ctx : Context) :
    (ensureCompiler env ctx).2.compiler = some (ensureCompiler env ctx).1 := by
  unfold ensureCompiler
  cases h : ctx.compiler with
  | none => rfl
  | some c => exact h

theorem recreateOnFull_css (env : Env) (s : Strategy) (c : Compiler) (ctx : Context) :
    (recreateOnFull env s c ctx).2.css = ctx.css := by
  cases s <;> rfl

theorem recreateOnFull_optimizedCss (env : Env) (s : Strategy) (c : Compiler) (ctx : Context) :
    (recreateOnFull env s c ctx).2.optimizedCss = ctx.optimizedCss := by
  cases s <;> rfl

theorem recreateOnFull_mtimes (env : Env) (s : Strategy) (c : Compiler) (ctx : Context) :
    (recreateOnFull env s c ctx).2.mtimes = ctx.mtimes := by
  cases s <;> rfl

theorem recreateOnFull_full (env : Env) (c : Compiler) (ctx : Context) :
    recreateOnFull env Strategy.full c ctx =
      (env.compile,
        { ctx with compiler := some env.compile, fullRebuildPaths := env.compile.deps }) := rfl

theorem recreateOnFull_incremental (env : Env) (c : Compiler) (ctx : Context) :
    recreateOnFull env Strategy.incremental c ctx = (c, ctx) := rfl

theorem recreateOnFull_compiler (env : Env) (s : Strategy) (c : Compiler) (ctx : Context)
    (h : ctx.compiler = some c) :
    (recreateOnFull env s c ctx).2.compiler = some (recreateOnFull env s c ctx).1 := by
  cases s <;> simp [recreateOnFull, h]

/-- `preEmit` unfolded to its components. -/
theorem preEmit_eq (env : Env) (fromOpt : Option String) (priorDeps : List String)
    (ctx : Context) :
    preEmit env fromOpt priorDeps ctx =
      ((recreateOnFull env
          (checkFiles env.mtime (fromOpt.getD "")
            (priorDeps ++ (ensureCompiler env ctx).2.fullRebuildPaths ++ [fromOpt.getD ""])
            (ensureCompiler env ctx).2.mtimes).1
          (ensureCompiler env ctx).1
          { (ensureCompiler env ctx).2 with
              mtimes := (checkFiles env.mtime (fromOpt.getD "")
                (priorDeps ++ (ensureCompiler env ctx).2.fullRebuildPaths ++ [fromOpt.getD ""])
                (ensureCompiler env ctx).2.mtimes).2 }).2,
        (checkFiles env.mtime (fromOpt.getD "")
          (priorDeps ++ (ensureCompiler env ctx).2.fullRebuildPaths ++ [fromOpt.getD ""])
          (ensureCompiler env ctx).2.mtimes).1,
        env.scan (ensureCompiler env ctx).1.globs,
        ((recreateOnFull env
            (checkFiles env.mtime (fromOpt.getD "")
              (priorDeps ++ (ensureCompiler env ctx).2.fullRebuildPaths ++ [fromOpt.getD ""])
              (ensureCompiler env ctx).2.mtimes).1
            (ensureCompiler env ctx).1
            { (ensureCompiler env ctx).2 with
                mtimes := (checkFiles env.mtime (fromOpt.getD "")
                  (priorDeps ++ (ensureCompiler env ctx).2.fullRebuildPaths ++ [fromOpt.getD ""])
                  (ensureCompiler env ctx).2.mtimes).2 }).1).build
          (env.scan (ensureCompiler env ctx).1.globs).candidates) := rfl

theorem preEmit_css (env : Env) (fromOpt : Option String) (priorDeps : List String)
    (ctx : Context) : (preEmit env fromOpt priorDeps ctx).1.css = ctx.css := by
  rw [preEmit_eq]
  rw [recreateOnFull_css]
  exact ensureCompiler_css env ctx

theorem preEmit_optimizedCss (env : Env) (fromOpt : Option String) (priorDeps : List String)
    (ctx : Context) : (preEmit env fromOpt priorDeps ctx).1.optimizedCss = ctx.optimizedCss := by
  rw [preEmit_eq]
  rw [recreateOnFull_optimizedCss]
  exact ensureCompiler_optimizedCss env ctx

theorem preEmit_mtimes (env : Env) (fromOpt : Option String) (priorDeps : List String)
    (ctx : Context) :
    (preEmit env fromOpt priorDeps ctx).1.mtimes =
      (checkFiles env.mtime (fromOpt.getD "")
        (priorDeps ++ (ensureCompiler env ctx).2.fullRebuildPaths ++ [fromOpt.getD ""])
        ctx.mtimes).2 := by
  rw [preEmit_eq]
  rw [recreateOnFull_mtimes]
  simp [ensureCompiler_mtimes]

theorem preEmit_strategy (env : Env) (fromOpt : Option String) (priorDeps : List String)
    (ctx : Context) :
    (preEmit env fromOpt priorDeps ctx).2.1 =
      (checkFiles env.mtime (fromOpt.getD "")
        (priorDeps ++ (ensureCompiler env ctx).2.fullRebuildPaths ++ [fromOpt.getD ""])
        ctx.mtimes).1 := by
  rw [preEmit_eq]
  simp [ensureCompiler_mtimes]

theorem emitPhase_error (env : Env) (opt : OptimizeSetting) (ctx : Context) (e : String) :
    emitPhase env opt ctx (Except.error e) = (ctx, Except.error e, 0) := rfl

theorem emitPhase_mtimes (env : Env) (opt : OptimizeSetting) (ctx : Context)
    (b : Except String String) : (emitPhase env opt ctx b).1.mtimes = ctx.mtimes := by
  unfold emitPhase
  cases b with
  | error e => rfl
  | ok css =>
      by_cases h : css ≠ ctx.css ∧ optTruthy opt = true <;> simp [h]

theorem emitPhase_compiler (env : Env) (opt : OptimizeSetting) (ctx : Context)
    (b : Except String String) : (emitPhase env opt ctx b).1.compiler = ctx.compiler := by
  unfold emitPhase
  cases b with
  | error e => rfl
  | ok css =>
      by_cases h : css ≠ ctx.css ∧ optTruthy opt = true <;> simp [h]

theorem emitPhase_frp (env : Env) (opt : OptimizeSetting) (ctx : Context)
    (b : Except String String) :
    (emitPhase env opt ctx b).1.fullRebuildPaths = ctx.fullRebuildPaths := by
  unfold emitPhase
  cases b with
  | error e => rfl
  | ok css =>
      by_cases h : css ≠ ctx.css ∧ optTruthy opt = true <;> simp [h]

theorem emitPhase_ok_css (env : Env) (opt : OptimizeSetting) (ctx : Context) (c : String) :
    (emitPhase env opt ctx (Except.ok c)).1.css = c := by
  unfold emitPhase
  by_cases h : c ≠ ctx.css ∧ optTruthy opt = true <;> simp [h]

theorem onceExit_ctx (env : Env) (opt : OptimizeSetting) (fromOpt : Option String)
    (priorDeps : List String) (ctx : Context) :
    (onceExit env opt fromOpt priorDeps ctx).ctx =
      (emitPhase env opt (preEmit env fromOpt priorDeps ctx).1
        (preEmit env fromOpt priorDeps ctx).2.2.2).1 := rfl

theorem onceExit_strategy (env : Env) (opt : OptimizeSetting) (fromOpt : Option String)
    (priorDeps : List String) (ctx : Context) :
    (onceExit env opt fromOpt priorDeps ctx).strategy =
      (preEmit env fromOpt priorDeps ctx).2.1 := rfl

theorem onceExit_rawBuild (env : Env) (opt : OptimizeSetting) (fromOpt : Option String)
    (priorDeps : List String) (ctx : Context) :
    (onceExit env opt fromOpt priorDeps ctx).rawBuild =
      (preEmit env fromOpt priorDeps ctx).2.2.2 := rfl

theorem onceExit_mtimes (env : Env) (opt : OptimizeSetting) (fromOpt : Option String)
    (priorDeps : List String) (ctx : Context) :
    (onceExit env opt fromOpt priorDeps ctx).ctx.mtimes =
      (checkFiles env.mtime (fromOpt.getD "")
        (priorDeps ++ (ensureCompiler env ctx).2.fullRebuildPaths ++ [fromOpt.getD ""])
        ctx.mtimes).2 := by
  rw [onceExit_ctx, emitPhase_mtimes, preEmit_mtimes]

theorem onceExit_output (env : Env) (opt : OptimizeSetting) (fromOpt : Option String)
    (priorDeps : List String) (ctx : Context) :
    (onceExit env opt fromOpt priorDeps ctx).output =
      (emitPhase env opt (preEmit env fromOpt priorDeps ctx).1
        (preEmit env fromOpt priorDeps ctx).2.2.2).2.1 := rfl

theorem onceExit_optimizeRuns (env : Env) (opt : OptimizeSetting) (fromOpt : Option String)
    (priorDeps : List String) (ctx : Context) :
    (onceExit env opt fromOpt priorDeps ctx).optimizeRuns =
      (emitPhase env opt (preEmit env fromOpt priorDeps ctx).1
        (preEmit env fromOpt priorDeps ctx).2.2.2).2.2 := rfl

theorem emitPhase_ok_noopt (env : Env) (opt : OptimizeSetting) (ctx : Context) (c : String)
    (hopt : optTruthy opt = false) :
    emitPhase env opt ctx (Except.ok c) = ({ ctx with css := c }, Except.ok c, 0) := by
  unfold emitPhase
  simp [hopt]

theorem emitPhase_ok_changed (env : Env) (opt : OptimizeSetting) (ctx : Context) (c : String)
    (hopt : optTruthy opt = true) (hne : c ≠ ctx.css) :
    emitPhase env opt ctx (Except.ok c) =
      ({ ctx with optimizedCss := env.transform (effMinify opt) c, css := c },
        Except.ok (env.transform (effMinify opt) c), 1) := by
  unfold emitPhase
  simp [hopt, hne]

theorem emitPhase_ok_unchanged (env : Env) (opt : OptimizeSetting) (ctx : Context) (c : String)
    (heq : c = ctx.css) :
    emitPhase env opt ctx (Except.ok c) =
      ({ ctx with css := c },
        Except.ok (if optTruthy opt = true then ctx.optimizedCss else c), 0) := by
  unfold emitPhase
  simp [heq]

theorem preEmit_build_consistent (env : Env) (fromOpt : Option String)
    (priorDeps : List String) (ctx : Context) :
    ∃ c2, (preEmit env fromOpt priorDeps ctx).1.compiler = some c2 ∧
      (preEmit env fromOpt priorDeps ctx).2.2.2 =
        c2.build (preEmit env fromOpt priorDeps ctx).2.2.1.candidates := by
  rw [preEmit_eq]
  refine ⟨_, ?_, rfl⟩
  apply recreateOnFull_compiler
  exact ensureCompiler_compiler env ctx

/-! ### Sample worlds used to witness the hypotheses of the main theorems -/

/-- A compiler handle whose build succeeds, joining the candidates. -/
def okCompiler : Compiler :=
  { globs := [⟨"/proj", "a"⟩], deps := ["/proj/b.css"],
    build := fun cs => Except.ok (String.intercalate " " cs) }

/-- A compiler handle whose build always throws. -/
def failCompiler : Compiler :=
  { globs := [], deps := [], build := fun _ => Except.error "boom" }

/-- A scan producing one candidate. -/
def sampleScan : List Glob → ScanResult :=
  fun _ => { candidates := ["flex"], files := ["/proj/index.html"], globs := [⟨"/proj", "a"⟩] }

/-- A world in which every file exists with a fixed mtime and builds succeed. -/
def envOk : Env :=
  { mtime := fun _ => some 1, compile := okCompiler, scan := sampleScan,
    transform := fun _ s => s ++ "!" }

/-- A world in which every file exists but the compiler build throws. -/
def envFail : Env :=
  { mtime := fun _ => some 1, compile := failCompiler, scan := sampleScan,
    transform := fun _ s => s ++ "!" }

/-- A world in which no file exists on disk. -/
def envGone : Env :=
  { mtime := fun _ => none, compile := okCompiler, scan := sampleScan,
    transform := fun _ s => s ++ "!" }

theorem cacheLookup_cacheSet_self (c : Cache) (k : String) (v : Context) :
    cacheLookup (cacheSet c k v) k = some v := by
  induction c with
  | nil => simp [cacheSet, cacheLookup]
  | cons hd tl ih =>
      obtain ⟨a, w⟩ := hd
      by_cases h : a = k
      · simp [cacheSet, cacheLookup, h]
      · simp [cacheSet, cacheLookup, h, ih]

/-! ### The claims -/

/-- C8: with no options, the scan base defaults to the current working
directory, and optimization defaults to the boolean that is true exactly
when NODE_ENV is the string production. -/
theorem defaults_cwd_and_production (cwd : String) (nodeEnv : Option String) :
    resolveBase { base := none, optimize := none } cwd = cwd ∧
    resolveOptimize { base := none, optimize := none } nodeEnv
      = OptimizeSetting.bool (decide (nodeEnv = some "production")) ∧
    (optTruthy (resolveOptimize { base := none, optimize := none } nodeEnv) = true
      ↔ nodeEnv = some "production") := by
  refine ⟨rfl, rfl, ?_⟩
  simp [resolveOptimize, optTruthy]

/-- C9: an invocation whose input has no source path uses the cache key that
is the empty string, so consecutive path-less invocations on the same plugin
instance read and write one shared cache entry: the second invocation starts
from exactly the context the first one left behind. -/
theorem pathless_inputs_share_entry (env1 env2 : Env) (opt : OptimizeSetting)
    (pd1 pd2 : List String) (cache : Cache) :
    (Option.getD (none : Option String) "" = "") ∧
    (pluginStep env1 opt none pd1 cache).1 =
      onceExit env1 opt none pd1 (cacheGet cache "").1 ∧
    (pluginStep env2 opt none pd2 (pluginStep env1 opt none pd1 cache).2).1 =
      onceExit env2 opt none pd2 (pluginStep env1 opt none pd1 cache).1.ctx := by
  refine ⟨rfl, rfl, ?_⟩
  show (pluginStep env2 opt none pd2
      (cacheSet (cacheGet cache "").2 ""
        (onceExit env1 opt none pd1 (cacheGet cache "").1).ctx)).1 = _
  unfold pluginStep
  simp [cacheGet, cacheLookup_cacheSet_self]

/-- C5: when the compiler build throws, the pass surfaces the error and the
last-known-good rawCss and optimizedCss of the cache entry are unchanged. -/
theorem build_failure_preserves_output (env : Env) (opt : OptimizeSetting)
    (fromOpt : Option String) (pd : List String) (ctx : Context) (e : String)
    (hb : (onceExit env opt fromOpt pd ctx).rawBuild = Except.error e) :
    (onceExit env opt fromOpt pd ctx).output = Except.error e ∧
    (onceExit env opt fromOpt pd ctx).ctx.css = ctx.css ∧
    (onceExit env opt fromOpt pd ctx).ctx.optimizedCss = ctx.optimizedCss ∧
    (onceExit env opt fromOpt pd ctx).optimizeRuns = 0 := by
  have hb' : (preEmit env fromOpt pd ctx).2.2.2 = Except.error e := hb
  refine ⟨?_, ?_, ?_, ?_⟩
  · rw [onceExit_output, hb', emitPhase_error]
  · rw [onceExit_ctx, hb', emitPhase_error]
    exact preEmit_css env fromOpt pd ctx
  · rw [onceExit_ctx, hb', emitPhase_error]
    exact preEmit_optimizedCss env fromOpt pd ctx
  · rw [onceExit_optimizeRuns, hb', emitPhase_error]

/-- Witness for C5: in a world whose compiler throws, a fresh invocation
surfaces the error and leaves the empty last-known-good fields alone. -/
theorem build_failure_preserves_output_witness :
    (onceExit envFail (OptimizeSetting.bool true) none [] initContext).output
        = Except.error "boom" ∧
    (onceExit envFail (OptimizeSetting.bool true) none [] initContext).ctx.css
        = initContext.css ∧
    (onceExit envFail (OptimizeSetting.bool true) none [] initContext).ctx.optimizedCss
        = initContext.optimizedCss ∧
    (onceExit envFail (OptimizeSetting.bool true) none [] initContext).optimizeRuns = 0 :=
  build_failure_preserves_output envFail (OptimizeSetting.bool true) none [] initContext
    "boom" rfl

/-- C7: when optimization is disabled the pass emits exactly the raw CSS the
build produced, the cached optimized CSS is never emitted and not touched,
and the optimizer does not run. -/
theorem optimize_disabled_emits_raw (env : Env) (opt : OptimizeSetting)
    (fromOpt : Option String) (pd : List String) (ctx : Context) (c : String)
    (hopt : optTruthy opt = false)
    (hb : (onceExit env opt fromOpt pd ctx).rawBuild = Except.ok c) :
    (onceExit env opt fromOpt pd ctx).output = Except.ok c ∧
    (onceExit env opt fromOpt pd ctx).ctx.css = c ∧
    (onceExit env opt fromOpt pd ctx).ctx.optimizedCss = ctx.optimizedCss ∧
    (onceExit env opt fromOpt pd ctx).optimizeRuns = 0 := by
  have hb' : (preEmit env fromOpt pd ctx).2.2.2 = Except.ok c := hb
  refine ⟨?_, ?_, ?_, ?_⟩
  · rw [onceExit_output, hb', emitPhase_ok_noopt env opt _ c hopt]
  · rw [onceExit_ctx, hb', emitPhase_ok_noopt env opt _ c hopt]
  · rw [onceExit_ctx, hb', emitPhase_ok_noopt env opt _ c hopt]
    exact preEmit_optimizedCss env fromOpt pd ctx
  · rw [onceExit_optimizeRuns, hb', emitPhase_ok_noopt env opt _ c hopt]

/-- Witness for C7: with optimize disabled, a fresh invocation in the working
world emits the raw build output. -/
theorem optimize_disabled_emits_raw_witness :
    (onceExit envOk (OptimizeSetting.bool false) none [] initContext).output
        = Except.ok "flex" ∧
    (onceExit envOk (OptimizeSetting.bool false) none [] initContext).ctx.css = "flex" ∧
    (onceExit envOk (OptimizeSetting.bool false) none [] initContext).ctx.optimizedCss
        = initContext.optimizedCss ∧
    (onceExit envOk (OptimizeSetting.bool false) none [] initContext).optimizeRuns = 0 :=
  optimize_disabled_emits_raw envOk (OptimizeSetting.bool false) none [] initContext
    "flex" rfl rfl

/-- C6: on every invocation, under either strategy, the candidate scan runs
(the scan result of the pass is the scanner output for the globs of the
handle in scope) and the build runs (the raw build outcome is the build of
the final handle on the scanned candidates); the strategy type has no third
no-op state. -/
theorem scan_and_build_always_run (env : Env) (opt : OptimizeSetting)
    (fromOpt : Option String) (pd : List String) (ctx : Context) :
    ((onceExit env opt fromOpt pd ctx).strategy = Strategy.full ∨
      (onceExit env opt fromOpt pd ctx).strategy = Strategy.incremental) ∧
    (onceExit env opt fromOpt pd ctx).scanResult
        = env.scan (ensureCompiler env ctx).1.globs ∧
    ∃ c2, (onceExit env opt fromOpt pd ctx).ctx.compiler = some c2 ∧
      (onceExit env opt fromOpt pd ctx).rawBuild =
        c2.build (onceExit env opt fromOpt pd ctx).scanResult.candidates := by
  refine ⟨?_, rfl, ?_⟩
  · cases h : (onceExit env opt fromOpt pd ctx).strategy
    · exact Or.inl rfl
    · exact Or.inr rfl
  · obtain ⟨c2, h1, h2⟩ := preEmit_build_consistent env fromOpt pd ctx
    refine ⟨c2, ?_, h2⟩
    rw [onceExit_ctx, emitPhase_compiler]
    exact h1

/-- `preEmit` unfolded when the entry already holds a compiler handle. -/
theorem preEmit_some (env : Env) (fromOpt : Option String) (pd : List String)
    (ctx : Context) (comp : Compiler) (hc : ctx.compiler = some comp) :
    preEmit env fromOpt pd ctx =
      ((recreateOnFull env
          (checkFiles env.mtime (fromOpt.getD "")
            (pd ++ ctx.fullRebuildPaths ++ [fromOpt.getD ""]) ctx.mtimes).1
          comp
          { ctx with
              mtimes := (checkFiles env.mtime (fromOpt.getD "")
                (pd ++ ctx.fullRebuildPaths ++ [fromOpt.getD ""]) ctx.mtimes).2 }).2,
        (checkFiles env.mtime (fromOpt.getD "")
          (pd ++ ctx.fullRebuildPaths ++ [fromOpt.getD ""]) ctx.mtimes).1,
        env.scan comp.globs,
        ((recreateOnFull env
            (checkFiles env.mtime (fromOpt.getD "")
              (pd ++ ctx.fullRebuildPaths ++ [fromOpt.getD ""]) ctx.mtimes).1
            comp
            { ctx with
                mtimes := (checkFiles env.mtime (fromOpt.getD "")
                  (pd ++ ctx.fullRebuildPaths ++ [fromOpt.getD ""]) ctx.mtimes).2 }).1).build
          (env.scan comp.globs).candidates) := by
  rw [preEmit_eq, ensureCompiler_some env ctx comp hc]

/-- C2: if some path recorded in fullRebuildPaths exists on disk with a
modification time that differs from the recorded one (or has no recorded
time), the pass chooses the Full strategy, records the observed time,
recreates the compiler handle (re-deriving fullRebuildPaths), and the build
step runs on the freshly created handle. -/
theorem touched_dependency_forces_full (env : Env) (opt : OptimizeSetting)
    (fromOpt : Option String) (pd : List String) (ctx : Context) (comp : Compiler)
    (p : String) (t : Nat)
    (hc : ctx.compiler = some comp)
    (hp : p ∈ ctx.fullRebuildPaths)
    (hm : env.mtime p = some t)
    (hprev : lookupM ctx.mtimes p ≠ some t) :
    (onceExit env opt fromOpt pd ctx).strategy = Strategy.full ∧
    lookupM (onceExit env opt fromOpt pd ctx).ctx.mtimes p = some t ∧
    (onceExit env opt fromOpt pd ctx).ctx.compiler = some env.compile ∧
    (onceExit env opt fromOpt pd ctx).ctx.fullRebuildPaths = env.compile.deps ∧
    (onceExit env opt fromOpt pd ctx).rawBuild =
      env.compile.build (env.scan comp.globs).candidates := by
  have hmem : p ∈ pd ++ ctx.fullRebuildPaths ++ [fromOpt.getD ""] := by
    simp [hp]
  have hS : (checkFiles env.mtime (fromOpt.getD "")
      (pd ++ ctx.fullRebuildPaths ++ [fromOpt.getD ""]) ctx.mtimes).1 = Strategy.full := by
    unfold checkFiles
    exact foldl_checkFile_forces env.mtime (fromOpt.getD "") _
      (Strategy.incremental, ctx.mtimes) p t hmem hm hprev
  have hPre := preEmit_some env fromOpt pd ctx comp hc
  rw [hS, recreateOnFull_full] at hPre
  refine ⟨?_, ?_, ?_, ?_, ?_⟩
  · rw [onceExit_strategy, hPre]
  · rw [onceExit_ctx, emitPhase_mtimes, hPre]
    show lookupM (checkFiles env.mtime (fromOpt.getD "")
      (pd ++ ctx.fullRebuildPaths ++ [fromOpt.getD ""]) ctx.mtimes).2 p = some t
    unfold checkFiles
    exact foldl_checkFile_records env.mtime (fromOpt.getD "") _
      (Strategy.incremental, ctx.mtimes) p t hmem hm
  · rw [onceExit_ctx, emitPhase_compiler, hPre]
  · rw [onceExit_ctx, emitPhase_frp, hPre]
  · rw [onceExit_rawBuild, hPre]

/-- An entry that already holds a handle and tracks one dependency path. -/
def touchedCtx : Context :=
  { initContext with compiler := some okCompiler, fullRebuildPaths := ["/proj/b.css"] }

/-- Witness for C2: a tracked dependency with a never-recorded mtime forces
the Full strategy on an entry that already holds a handle. -/
theorem touched_dependency_forces_full_witness :
    (onceExit envOk (OptimizeSetting.bool true) none [] touchedCtx).strategy = Strategy.full ∧
    lookupM (onceExit envOk (OptimizeSetting.bool true) none [] touchedCtx).ctx.mtimes "/proj/b.css" = some 1 ∧
    (onceExit envOk (OptimizeSetting.bool true) none [] touchedCtx).ctx.compiler = some envOk.compile ∧
    (onceExit envOk (OptimizeSetting.bool true) none [] touchedCtx).ctx.fullRebuildPaths
        = envOk.compile.deps ∧
    (onceExit envOk (OptimizeSetting.bool true) none [] touchedCtx).rawBuild
        = envOk.compile.build (envOk.scan okCompiler.globs).candidates :=
  touched_dependency_forces_full envOk (OptimizeSetting.bool true) none [] touchedCtx
    okCompiler "/proj/b.css" 1 rfl (by simp [touchedCtx, initContext]) rfl
    (by simp [touchedCtx, initContext, lookupM])

/-- C3: a missing tracked path does not by itself change the decision state
(strategy and clock) of the pass unless it is the input entry point, and a
missing entry-point path does force the Full strategy. -/
theorem missing_path_handling (env : Env) (opt : OptimizeSetting)
    (fromOpt : Option String) (pd : List String) (ctx : Context)
    (st : Strategy × Mtimes) (f : String) :
    (env.mtime (fromOpt.getD "") = none →
      (onceExit env opt fromOpt pd ctx).strategy = Strategy.full) ∧
    (env.mtime f = none → f ≠ fromOpt.getD "" →
      checkFile env.mtime (fromOpt.getD "") st f = st) := by
  constructor
  · intro hm
    rw [onceExit_strategy, preEmit_strategy]
    unfold checkFiles
    apply foldl_checkFile_missing_input env.mtime (fromOpt.getD "") _ _ _ hm
    simp
  · intro hm hne
    unfold checkFile
    rw [hm]
    simp [hne]

/-- Witness for C3: in a world with no files on disk, the entry-point check
forces Full, while the check of a missing non-entry path is a no-op. -/
theorem missing_path_handling_witness :
    (onceExit envGone (OptimizeSetting.bool true) none [] initContext).strategy
        = Strategy.full ∧
    checkFile envGone.mtime "" (Strategy.incremental, []) "/proj/b.css"
        = (Strategy.incremental, []) :=
  ⟨(missing_path_handling envGone (OptimizeSetting.bool true) none [] initContext
      (Strategy.incremental, []) "/proj/b.css").1 rfl,
    (missing_path_handling envGone (OptimizeSetting.bool true) none [] initContext
      (Strategy.incremental, []) "/proj/b.css").2 rfl (by decide)⟩

/-- C10: when a tracked non-entry path is missing on disk during a pass, its
previously recorded modification time is retained unchanged in the clock;
and a later check of that path, once it reappears with exactly the retained
time, is a no-op (it does not force Full and does not touch the clock). -/
theorem missing_dependency_clock_retained (env : Env) (opt : OptimizeSetting)
    (fromOpt : Option String) (pd : List String) (ctx : Context)
    (p : String) (t : Nat)
    (hp : env.mtime p = none)
    (_hne : p ≠ fromOpt.getD "")
    (hrec : lookupM ctx.mtimes p = some t) :
    lookupM (onceExit env opt fromOpt pd ctx).ctx.mtimes p = some t ∧
    ∀ (mt2 : String → Option Nat) (st : Strategy × Mtimes),
      mt2 p = some t → lookupM st.2 p = some t →
      checkFile mt2 (fromOpt.getD "") st p = st := by
  constructor
  · rw [onceExit_mtimes]
    show lookupM (checkFiles env.mtime (fromOpt.getD "") _ ctx.mtimes).2 p = some t
    unfold checkFiles
    rw [foldl_checkFile_missing env.mtime (fromOpt.getD "") _ _ p hp]
    exact hrec
  · intro mt2 st h1 h2
    unfold checkFile
    rw [h1, h2]
    simp

/-- An entry that tracks one dependency path with a recorded mtime. -/
def recordedCtx : Context :=
  { initContext with
      compiler := some okCompiler
      fullRebuildPaths := ["/proj/b.css"]
      mtimes := [("/proj/b.css", 7)] }

/-- Witness for C10: a pass in a world where the tracked path is gone keeps
its recorded time, and the later equal-time check is a no-op. -/
theorem missing_dependency_clock_retained_witness :
    lookupM (onceExit envGone (OptimizeSetting.bool true) none [] recordedCtx).ctx.mtimes
        "/proj/b.css" = some 7 ∧
    ∀ (mt2 : String → Option Nat) (st : Strategy × Mtimes),
      mt2 "/proj/b.css" = some 7 → lookupM st.2 "/proj/b.css" = some 7 →
      checkFile mt2 "" st "/proj/b.css" = st :=
  missing_dependency_clock_retained envGone (OptimizeSetting.bool true) none [] recordedCtx
    "/proj/b.css" 7 rfl (by decide) (by simp [recordedCtx, initContext, lookupM])

/-- C4: across two consecutive invocations on the same entry with
optimization enabled, where the first build produces CSS that differs from
the cached CSS and the second build produces the same CSS again, the
optimizer runs on the first pass only, the second pass emits the optimized
CSS cached by the first, and in total the transform runs exactly once. -/
theorem optimizer_memoized (env1 env2 : Env) (opt : OptimizeSetting)
    (fromOpt : Option String) (pd1 pd2 : List String) (ctx0 : Context) (c : String)
    (hopt : optTruthy opt = true)
    (h0 : c ≠ ctx0.css)
    (hb1 : (onceExit env1 opt fromOpt pd1 ctx0).rawBuild = Except.ok c)
    (hb2 : (onceExit env2 opt fromOpt pd2
      (onceExit env1 opt fromOpt pd1 ctx0).ctx).rawBuild = Except.ok c) :
    (onceExit env1 opt fromOpt pd1 ctx0).optimizeRuns = 1 ∧
    (onceExit env2 opt fromOpt pd2
        (onceExit env1 opt fromOpt pd1 ctx0).ctx).optimizeRuns = 0 ∧
    (onceExit env2 opt fromOpt pd2 (onceExit env1 opt fromOpt pd1 ctx0).ctx).output
      = Except.ok (onceExit env1 opt fromOpt pd1 ctx0).ctx.optimizedCss ∧
    (onceExit env2 opt fromOpt pd2
        (onceExit env1 opt fromOpt pd1 ctx0).ctx).ctx.optimizedCss
      = (onceExit env1 opt fromOpt pd1 ctx0).ctx.optimizedCss ∧
    (onceExit env1 opt fromOpt pd1 ctx0).optimizeRuns +
      (onceExit env2 opt fromOpt pd2
        (onceExit env1 opt fromOpt pd1 ctx0).ctx).optimizeRuns = 1 := by
  have hb1' : (preEmit env1 fromOpt pd1 ctx0).2.2.2 = Except.ok c := hb1
  have hne1 : c ≠ (preEmit env1 fromOpt pd1 ctx0).1.css := by
    rw [preEmit_css]
    exact h0
  have hctx1 : (onceExit env1 opt fromOpt pd1 ctx0).ctx =
      { (preEmit env1 fromOpt pd1 ctx0).1 with
          optimizedCss := env1.transform (effMinify opt) c, css := c } := by
    rw [onceExit_ctx, hb1', emitPhase_ok_changed env1 opt _ c hopt hne1]
  have hruns1 : (onceExit env1 opt fromOpt pd1 ctx0).optimizeRuns = 1 := by
    rw [onceExit_optimizeRuns, hb1', emitPhase_ok_changed env1 opt _ c hopt hne1]
  have hcss1 : (onceExit env1 opt fromOpt pd1 ctx0).ctx.css = c := by
    rw [hctx1]
  have hocss1 : (onceExit env1 opt fromOpt pd1 ctx0).ctx.optimizedCss
      = env1.transform (effMinify opt) c := by
    rw [hctx1]
  have hb2' : (preEmit env2 fromOpt pd2 (onceExit env1 opt fromOpt pd1 ctx0).ctx).2.2.2
      = Except.ok c := hb2
  have heq2 : c = (preEmit env2 fromOpt pd2 (onceExit env1 opt fromOpt pd1 ctx0).ctx).1.css := by
    rw [preEmit_css, hcss1]
  have hocss2 : (preEmit env2 fromOpt pd2 (onceExit env1 opt fromOpt pd1 ctx0).ctx).1.optimizedCss
      = env1.transform (effMinify opt) c := by
    rw [preEmit_optimizedCss, hocss1]
  refine ⟨hruns1, ?_, ?_, ?_, ?_⟩
  · rw [onceExit_optimizeRuns, hb2', emitPhase_ok_unchanged env2 opt _ c heq2]
  · rw [onceExit_output, hb2', emitPhase_ok_unchanged env2 opt _ c heq2, hocss1]
    simp [hopt, hocss2]
  · rw [onceExit_ctx, hb2', emitPhase_ok_unchanged env2 opt _ c heq2, hocss1]
    simpa using hocss2
  · rw [hruns1, onceExit_optimizeRuns, hb2', emitPhase_ok_unchanged env2 opt _ c heq2]
    rfl

/-- Witness for C4: two invocations in the working world starting from a
fresh entry; the first builds and optimizes the CSS, the second reuses it. -/
theorem optimizer_memoized_witness :
    (onceExit envOk (OptimizeSetting.bool true) none [] initContext).optimizeRuns = 1 ∧
    (onceExit envOk (OptimizeSetting.bool true) none []
        (onceExit envOk (OptimizeSetting.bool true) none [] initContext).ctx).optimizeRuns
      = 0 ∧
    (onceExit envOk (OptimizeSetting.bool true) none []
        (onceExit envOk (OptimizeSetting.bool true) none [] initContext).ctx).output
      = Except.ok (onceExit envOk (OptimizeSetting.bool true) none []
          initContext).ctx.optimizedCss ∧
    (onceExit envOk (OptimizeSetting.bool true) none []
        (onceExit envOk (OptimizeSetting.bool true) none [] initContext).ctx).ctx.optimizedCss
      = (onceExit envOk (OptimizeSetting.bool true) none [] initContext).ctx.optimizedCss ∧
    (onceExit envOk (OptimizeSetting.bool true) none [] initContext).optimizeRuns +
      (onceExit envOk (OptimizeSetting.bool true) none []
        (onceExit envOk (OptimizeSetting.bool true) none [] initContext).ctx).optimizeRuns
      = 1 :=
  optimizer_memoized envOk envOk (OptimizeSetting.bool true) none [] [] initContext
    "flex" rfl (by decide) rfl rfl

/-! ### The steady state reached after the first invocation (for C1) -/

/-- The steady state of a cache entry under a fixed environment: the handle
is the one the environment produces, fullRebuildPaths are its reported
dependencies, and every file the pass time-checks that exists on disk has
its current time recorded in the clock. -/
def goodEntry (env : Env) (fromOpt : Option String) (pd : List String)
    (ctx : Context) : Prop :=
  ctx.compiler = some env.compile ∧
  ctx.fullRebuildPaths = env.compile.deps ∧
  ∀ f ∈ pd ++ env.compile.deps ++ [fromOpt.getD ""],
    ∀ t, env.mtime f = some t → lookupM ctx.mtimes f = some t

theorem iterate_succ_apply (env : Env) (opt : OptimizeSetting) (fromOpt : Option String)
    (pd : List String) (n : Nat) (ctx : Context) :
    iterate env opt fromOpt pd (n + 1) ctx =
      (onceExit env opt fromOpt pd (iterate env opt fromOpt pd n ctx)).ctx := by
  induction n generalizing ctx with
  | zero => rfl
  | succ n ih =>
      show iterate env opt fromOpt pd (n + 1) (onceExit env opt fromOpt pd ctx).ctx = _
      rw [ih]
      rfl

theorem onceExit_handle_state (env : Env) (opt : OptimizeSetting)
    (fromOpt : Option String) (pd : List String) (ctx : Context)
    (h1 : (ensureCompiler env ctx).2.compiler = some env.compile)
    (h2 : (ensureCompiler env ctx).2.fullRebuildPaths = env.compile.deps) :
    (onceExit env opt fromOpt pd ctx).ctx.compiler = some env.compile ∧
    (onceExit env opt fromOpt pd ctx).ctx.fullRebuildPaths = env.compile.deps := by
  constructor
  · rw [onceExit_ctx, emitPhase_compiler, preEmit_eq]
    cases hS : (checkFiles env.mtime (fromOpt.getD "")
        (pd ++ (ensureCompiler env ctx).2.fullRebuildPaths ++ [fromOpt.getD ""])
        (ensureCompiler env ctx).2.mtimes).1
    · rw [recreateOnFull_full]
    · rw [recreateOnFull_incremental]
      exact h1
  · rw [onceExit_ctx, emitPhase_frp, preEmit_eq]
    cases hS : (checkFiles env.mtime (fromOpt.getD "")
        (pd ++ (ensureCompiler env ctx).2.fullRebuildPaths ++ [fromOpt.getD ""])
        (ensureCompiler env ctx).2.mtimes).1
    · rw [recreateOnFull_full]
    · rw [recreateOnFull_incremental]
      exact h2

/-- After the very first invocation on a fresh entry the steady state holds. -/
theorem goodEntry_first (env : Env) (opt : OptimizeSetting) (fromOpt : Option String)
    (pd : List String) :
    goodEntry env fromOpt pd (onceExit env opt fromOpt pd initContext).ctx := by
  have hE : ensureCompiler env initContext =
      (env.compile,
        { initContext with
            compiler := some env.compile
            fullRebuildPaths := env.compile.deps }) :=
    ensureCompiler_none env initContext rfl
  have hs := onceExit_handle_state env opt fromOpt pd initContext
    (by rw [hE]) (by rw [hE])
  refine ⟨hs.1, hs.2, ?_⟩
  intro f hf t hmt
  rw [onceExit_mtimes, hE]
  show lookupM (checkFiles env.mtime (fromOpt.getD "")
    (pd ++ env.compile.deps ++ [fromOpt.getD ""]) initContext.mtimes).2 f = some t
  unfold checkFiles
  exact foldl_checkFile_records env.mtime (fromOpt.getD "") _ _ f t hf hmt

/-- From the steady state, an invocation in an unchanged world in which the
entry point exists chooses Incremental, keeps the handle, and preserves the
steady state. -/
theorem onceExit_goodEntry (env : Env) (opt : OptimizeSetting)
    (fromOpt : Option String) (pd : List String) (ctx : Context) (te : Nat)
    (hm : env.mtime (fromOpt.getD "") = some te)
    (hg : goodEntry env fromOpt pd ctx) :
    (onceExit env opt fromOpt pd ctx).strategy = Strategy.incremental ∧
    (onceExit env opt fromOpt pd ctx).ctx.compiler = ctx.compiler ∧
    goodEntry env fromOpt pd (onceExit env opt fromOpt pd ctx).ctx := by
  obtain ⟨hc, hf, hrec⟩ := hg
  have hStable : checkFiles env.mtime (fromOpt.getD "")
      (pd ++ ctx.fullRebuildPaths ++ [fromOpt.getD ""]) ctx.mtimes
      = (Strategy.incremental, ctx.mtimes) := by
    unfold checkFiles
    apply foldl_checkFile_stable
    intro f hfm
    rw [hf] at hfm
    cases hmf : env.mtime f with
    | none =>
        left
        refine ⟨rfl, ?_⟩
        intro hfe
        rw [hfe, hm] at hmf
        exact Option.noConfusion hmf
    | some t =>
        right
        exact ⟨t, rfl, hrec f hfm t hmf⟩
  have hPre := preEmit_some env fromOpt pd ctx env.compile hc
  rw [hStable, recreateOnFull_incremental] at hPre
  have hctxEq : (preEmit env fromOpt pd ctx).1 = ctx := by
    rw [hPre]
  have hstrat : (onceExit env opt fromOpt pd ctx).strategy = Strategy.incremental := by
    rw [onceExit_strategy, hPre]
  refine ⟨hstrat, ?_, ?_, ?_, ?_⟩
  · rw [onceExit_ctx, emitPhase_compiler, hctxEq]
  · rw [onceExit_ctx, emitPhase_compiler, hctxEq]
    exact hc
  · rw [onceExit_ctx, emitPhase_frp, hctxEq]
    exact hf
  · intro f hfm t hmt
    rw [onceExit_ctx, emitPhase_mtimes, hctxEq]
    exact hrec f hfm t hmt

/-- The steady state holds after every positive number of invocations. -/
theorem goodEntry_iterate (env : Env) (opt : OptimizeSetting)
    (fromOpt : Option String) (pd : List String) (te : Nat)
    (hm : env.mtime (fromOpt.getD "") = some te) (n : Nat) :
    goodEntry env fromOpt pd (iterate env opt fromOpt pd (n + 1) initContext) := by
  induction n with
  | zero => exact goodEntry_first env opt fromOpt pd
  | succ n ih =>
      rw [iterate_succ_apply]
      exact (onceExit_goodEntry env opt fromOpt pd _ te hm ih).2.2

/-- C1: under a fixed environment in which the entry-point file exists (and
so the entry point and every tracked dependency keep their modification
times), every invocation after the first chooses the Incremental strategy
and does not recreate the compiler handle. -/
theorem incremental_after_first (env : Env) (opt : OptimizeSetting)
    (fromOpt : Option String) (pd : List String) (te : Nat)
    (hm : env.mtime (fromOpt.getD "") = some te) (n : Nat) :
    (onceExit env opt fromOpt pd
        (iterate env opt fromOpt pd (n + 1) initContext)).strategy
      = Strategy.incremental ∧
    (onceExit env opt fromOpt pd
        (iterate env opt fromOpt pd (n + 1) initContext)).ctx.compiler
      = (iterate env opt fromOpt pd (n + 1) initContext).compiler := by
  have h := onceExit_goodEntry env opt fromOpt pd _ te hm
    (goodEntry_iterate env opt fromOpt pd te hm n)
  exact ⟨h.1, h.2.1⟩

/-- Witness for C1: in the unchanged working world the second invocation is
incremental and keeps the handle of the first. -/
theorem incremental_after_first_witness :
    (onceExit envOk (OptimizeSetting.bool true) none []
        (iterate envOk (OptimizeSetting.bool true) none [] 1 initContext)).strategy
      = Strategy.incremental ∧
    (onceExit envOk (OptimizeSetting.bool true) none []
        (iterate envOk (OptimizeSetting.bool true) none [] 1 initContext)).ctx.compiler
      = (iterate envOk (OptimizeSetting.bool true) none [] 1 initContext).compiler :=
  incremental_after_first envOk (OptimizeSetting.bool true) none [] 1 rfl 0

end TailwindPostcss
